import Mathlib

set_option maxRecDepth 100000

/-
Shallow embedding of mono.posix src/signal.c (the UnixSignal registration
table, dispatch handler, and WaitAny multi-wait engine).

Modelling choices:
* The static array `signal_info signals[NUM_SIGNALS]` is modelled as a total
  function `slots : Nat → SlotInfo`; indices 0..63 are the table, larger
  indices stand for whatever memory lies past the array (this lets the
  embedding express the source's pointer bound `h > &signals[NUM_SIGNALS]`,
  which accepts the one-past-the-end address).
* A `signal_info*` handle is `Option Int`: `none` is NULL, `some p` is the
  slot index the pointer corresponds to (negative = before the array).
* Function pointers / dispositions are the inductive `Disp`;
  `Disp.tableHandler` is `default_handler`, `Disp.nullH` is NULL.
* The OS signal-disposition table is `os : Int → Disp`; the C `signal()`
  primitive either succeeds (oracle `sigOk`), returning the old disposition
  and updating `os`, or fails (SIG_ERR) leaving `os` unchanged.
* Observable actions (lock operations, the blocking select, pipe reads and
  writes, calls to `signal()`, and the two atomic stores at the end of
  `install`) are emitted as an event trace `List Act` so that ordering
  claims can be stated.
* `select` is modelled by an oracle `SelectOutcome`: after the EINTR retry
  loop it either reported a timeout, a non-empty ready set of file
  descriptors, or a non-EINTR failure.
* In `setup_pipes` the C variable `r` is declared uninitialized; its initial
  indeterminate value is made explicit as the parameter `r0`.  Results of
  the `pipe()` calls are an oracle `pipeRes` (`none` = failure).
-/

/-- Disposition / signal-handler function pointers. -/
inductive Disp where
  | dfl : Disp
  | ign : Disp
  | sigerr : Disp
  | nullH : Disp
  | tableHandler : Disp
  | user : Nat → Disp
deriving DecidableEq

/-- One entry of the static `signals` array (struct Mono_Unix_UnixSignal_SignalInfo). -/
structure SlotInfo where
  signum : Int := 0
  count : Int := 0
  read_fd : Int := 0
  write_fd : Int := 0
  handler : Disp := Disp.nullH
  have_handler : Int := 0
deriving DecidableEq

/-- NUM_SIGNALS from signal.c. -/
def NUM_SIGNALS : Nat := 64

/-- EINVAL errno value. -/
def EINVAL : Int := 22

/-- Global state: the signals array, the OS disposition table, and an oracle
saying for which signal numbers `signal()` succeeds. -/
structure TableState where
  slots : Nat → SlotInfo
  os : Int → Disp
  sigOk : Int → Bool

/-- Observable actions emitted by the embedded code. -/
inductive Act where
  | lockAcquire : Act
  | lockRelease : Act
  | blockingWait : Act
  | armPipe : Nat → Act
  | closeFd : Int → Act
  | pipeRead : Int → Act
  | pipeWrite : Int → Act
  | sigCall : Int → Act
  | setCount : Nat → Int → Act
  | setSignum : Nat → Int → Act
deriving DecidableEq

/-- One iteration of the loop body of `default_handler` (signal.c lines 73-84):
if slot `i` matches the delivered signal, atomically increment its count and,
when its `write_fd` is `> 0`, write one wake byte into it (best effort). -/
def handlerStep (st : TableState) (signum : Int) (i : Nat) : TableState × List Act :=
  let h := st.slots i
  if h.signum = signum then
    let st1 : TableState :=
      { st with slots := Function.update st.slots i { h with count := h.count + 1 } }
    if h.write_fd > 0 then (st1, [Act.pipeWrite h.write_fd]) else (st1, [])
  else (st, [])

/-- The `for (i = 0; i < NUM_SIGNALS; ++i)` loop of `default_handler`,
iterating slots `0 .. n-1` in order. -/
def handlerLoop (st : TableState) (signum : Int) : Nat → TableState × List Act
  | 0 => (st, [])
  | n + 1 =>
    let prev := handlerLoop st signum n
    let step := handlerStep prev.1 signum n
    (step.1, prev.2 ++ step.2)

/-- `default_handler` (signal.c lines 69-85): the dispatch handler installed as
the OS-level signal handler.  Lock-free: it emits no lock actions. -/
def default_handler (st : TableState) (signum : Int) : TableState × List Act :=
  handlerLoop st signum NUM_SIGNALS

/-- Iterated delivery of the same signal `n` times (n calls of the dispatch
handler back to back), accumulating the action trace. -/
def deliverN (st : TableState) (signum : Int) : Nat → TableState × List Act
  | 0 => (st, [])
  | n + 1 =>
    let prev := deliverN st signum n
    let d := default_handler prev.1 signum
    (d.1, prev.2 ++ d.2)

/-- `count_handlers` (signal.c lines 140-150): number of table slots whose
`signum` equals the given signal number. -/
def count_handlers (st : TableState) (signum : Int) : Nat :=
  ((List.range NUM_SIGNALS).filter (fun i => (st.slots i).signum == signum)).length

/-- `Mono_Unix_UnixSignal_install` (signal.c lines 89-138).
Returns (new state, allocated slot index or NULL, action trace).

The C loop simultaneously (a) claims the first free slot `k` (calling
`signal (sig, default_handler)` at the moment of claiming; on SIG_ERR it
nulls the slot's handler field and breaks, returning NULL), and (b) finds
the first slot `j` with `signum == sig && handler != default_handler`,
whose recorded prior disposition is then copied over the claimed slot's
handler field.  The early `break` once both are found does not change which
first matches are used, and the claimed slot can never satisfy the scan (its
`signum` is still 0 inside the loop), so the two searches are embedded as
independent first-match searches over the entry state.  Finally (lines
130-133) the count is atomically reset to 0 and then `signum` is published. -/
def Mono_Unix_UnixSignal_install (st : TableState) (sig : Int) :
    TableState × Option Nat × List Act :=
  match (List.range NUM_SIGNALS).find? (fun i => (st.slots i).signum == 0) with
  | none => (st, none, [])
  | some k =>
    if st.sigOk sig then
      let prior := st.os sig
      let priorRec :=
        match (List.range NUM_SIGNALS).find? (fun i =>
            (st.slots i).signum == sig && !((st.slots i).handler == Disp.tableHandler)) with
        | some j => (st.slots j).handler
        | none => prior
      let newSlot : SlotInfo :=
        { signum := sig, count := 0, read_fd := (st.slots k).read_fd,
          write_fd := (st.slots k).write_fd, handler := priorRec, have_handler := 1 }
      ({ st with os := Function.update st.os sig Disp.tableHandler,
                 slots := Function.update st.slots k newSlot },
       some k,
       [Act.sigCall sig, Act.setCount k 0, Act.setSignum k sig])
    else
      let nulled : SlotInfo := { st.slots k with handler := Disp.nullH }
      ({ st with slots := Function.update st.slots k nulled },
       none, [Act.sigCall sig])

/-- The disposition value `install` records in the newly claimed slot: the
recorded prior disposition of the first existing registration for `sig`
(scan condition `signum == sig && handler != default_handler`), or the
current OS disposition captured by the `signal()` call when no such
registration exists. -/
def priorRecorded (st : TableState) (sig : Int) : Disp :=
  match (List.range NUM_SIGNALS).find? (fun i =>
      (st.slots i).signum == sig && !((st.slots i).handler == Disp.tableHandler)) with
  | some j => (st.slots j).handler
  | none => st.os sig

/-- The contents `install` leaves in the claimed slot `k`. -/
def installedSlot (st : TableState) (sig : Int) (k : Nat) : SlotInfo :=
  { signum := sig, count := 0, read_fd := (st.slots k).read_fd,
    write_fd := (st.slots k).write_fd, handler := priorRecorded st sig, have_handler := 1 }

/-- The contents `install` leaves in the claimed slot when `signal()` fails
(handler field nulled, slot not published). -/
def nulledSlot (h : SlotInfo) : SlotInfo :=
  { h with handler := Disp.nullH }

/-- Slot contents after the restore branch of uninstall clears the handler
fields and the signal number (signal.c lines 174-177). -/
def clearedSlot (h : SlotInfo) : SlotInfo :=
  { h with handler := Disp.nullH, have_handler := 0, signum := 0 }

/-- Slot contents after the non-restoring branch of uninstall clears just
the signal number (signal.c line 177). -/
def freedSlot (h : SlotInfo) : SlotInfo :=
  { h with signum := 0 }

/-- `Mono_Unix_UnixSignal_uninstall` (signal.c lines 152-183).
Returns (new state, return value r, errno set by this function or `none`).

The C validity check is `h == NULL || h < signals || h > &signals[NUM_SIGNALS]`,
i.e. index `p` is accepted whenever `0 ≤ p ≤ 64` — including the
one-past-the-end index 64.  On a valid handle: if the slot's `have_handler`
is set and it is the sole slot holding its signal number, the prior
disposition is reinstalled via `signal()` (r becomes 0 exactly when that
call succeeds) and the handler fields are cleared; in every valid case the
slot's `signum` is cleared to 0.  `r` starts at -1 and is otherwise
unchanged. -/
def Mono_Unix_UnixSignal_uninstall (st : TableState) (info : Option Int) :
    TableState × Int × Option Int :=
  match info with
  | none => (st, -1, some EINVAL)
  | some p =>
    if p < 0 ∨ (NUM_SIGNALS : Int) < p then (st, -1, some EINVAL)
    else
      let k := p.toNat
      let h := st.slots k
      if h.have_handler ≠ 0 ∧ count_handlers st h.signum = 1 then
        let ok := st.sigOk h.signum
        ({ st with
            os := if ok then Function.update st.os h.signum h.handler else st.os,
            slots := Function.update st.slots k (clearedSlot h) },
         if ok then 0 else -1, none)
      else
        ({ st with slots := Function.update st.slots k (freedSlot h) },
         -1, none)

/-- Outcome of the `select` retry loop of `wait_for_any` (signal.c lines
225-235): after transparently retrying EINTR interruptions, `select` either
returned 0 (timeout expiry — only possible when a finite timeout was passed),
a positive count with `read_fds` narrowed to the ready descriptors, or a
non-EINTR failure. -/
inductive SelectOutcome where
  | timedOut : SelectOutcome
  | ready : List Int → SelectOutcome
  | failed : Int → SelectOutcome
deriving DecidableEq

/-- `setup_pipes` (signal.c lines 185-204): for each handle in order, create a
pipe (oracle `pipeRes`; `none` models `pipe()` failing, which breaks the loop
with r = -1), store the two descriptors in the slot, track the max read fd and
collect read fds.  `r` is declared uninitialized in the C source; its initial
indeterminate value is the explicit parameter `r` here, which is returned
unchanged when the loop body never runs (count = 0).
Returns (state, r, maxFd, readFds, actions). -/
def setup_pipes (st : TableState) (hs : List Nat) (pipeRes : Nat → Option (Int × Int))
    (idx : Nat) (r : Int) (maxFd : Int) (readFds : List Int) :
    TableState × Int × Int × List Int × List Act :=
  match hs with
  | [] => (st, r, maxFd, readFds, [])
  | h :: rest =>
    match pipeRes idx with
    | none => (st, -1, maxFd, readFds, [])
    | some fds =>
      let armed : SlotInfo := { st.slots h with read_fd := fds.1, write_fd := fds.2 }
      let st1 : TableState := { st with slots := Function.update st.slots h armed }
      let maxFd1 := if fds.1 > maxFd then fds.1 else maxFd
      let rest' := setup_pipes st1 rest pipeRes (idx + 1) 0 maxFd1 (readFds ++ [fds.1])
      (rest'.1, rest'.2.1, rest'.2.2.1, rest'.2.2.2.1, Act.armPipe h :: rest'.2.2.2.2)

/-- `teardown_pipes` (signal.c lines 206-219): close any nonzero pipe ends of
each handle's slot and clear both fields to 0. -/
def teardown_pipes (st : TableState) (hs : List Nat) : TableState × List Act :=
  match hs with
  | [] => (st, [])
  | h :: rest =>
    let sl := st.slots h
    let evs1 := (if sl.read_fd ≠ 0 then [Act.closeFd sl.read_fd] else []) ++
                (if sl.write_fd ≠ 0 then [Act.closeFd sl.write_fd] else [])
    let disarmed : SlotInfo := { sl with read_fd := 0, write_fd := 0 }
    let st1 : TableState := { st with slots := Function.update st.slots h disarmed }
    let rest' := teardown_pipes st1 rest
    (rest'.1, evs1 ++ rest'.2)

/-- The scan loop of `wait_for_any` (signal.c lines 241-250): walk the handles
in input order; for each whose read fd is in the ready set `R`, read one byte
(errors ignored) and record the first such index.  `i` is the loop counter,
`idx` the running result (initially -1). -/
def drainScan (st : TableState) (R : List Int) : List Nat → Nat → Int → Int × List Act
  | [], _, idx => (idx, [])
  | h :: rest, i, idx =>
    if (st.slots h).read_fd ∈ R then
      let idx1 := if idx = -1 then (i : Int) else idx
      let next := drainScan st R rest (i + 1) idx1
      (next.1, Act.pipeRead (st.slots h).read_fd :: next.2)
    else
      drainScan st R rest (i + 1) idx

/-- `wait_for_any` (signal.c lines 221-254): block in `select` (retrying
EINTR); on r = 0 return the timeout value itself (`idx = timeout`); on r > 0
drain and return the first ready input index; on failure return -1. -/
def wait_for_any (st : TableState) (hs : List Nat) (timeout : Int)
    (outcome : SelectOutcome) : Int × List Act :=
  match outcome with
  | SelectOutcome.failed _ => (-1, [Act.blockingWait])
  | SelectOutcome.timedOut => (timeout, [Act.blockingWait])
  | SelectOutcome.ready R =>
    let scan := drainScan st R hs 0 (-1)
    (scan.1, Act.blockingWait :: scan.2)

/-- `Mono_Unix_UnixSignal_WaitAny` (signal.c lines 261-287): take the table
lock, arm the pipes, and — still under the lock — run `wait_for_any` whenever
`setup_pipes` returned 0; then tear the pipes down and release the lock.  The
indeterminate initial value of setup's `r` is the parameter `r0`.
Returns (state, result, actions). -/
def Mono_Unix_UnixSignal_WaitAny (st : TableState) (hs : List Nat) (timeout : Int)
    (r0 : Int) (pipeRes : Nat → Option (Int × Int)) (outcome : SelectOutcome) :
    TableState × Int × List Act :=
  let setup := setup_pipes st hs pipeRes 0 r0 0 []
  let waited := if setup.2.1 = 0 then wait_for_any setup.1 hs timeout outcome
                else (setup.2.1, [])
  let torn := teardown_pipes setup.1 hs
  (torn.1, waited.1,
   Act.lockAcquire :: (setup.2.2.2.2 ++ (waited.2 ++ torn.2)) ++ [Act.lockRelease])

/-! Concrete states and oracles used by counterexamples and witnesses. -/

/-- Pipe oracle that always succeeds: the i-th `pipe()` call yields fds
(3 + 2i, 4 + 2i). -/
def prA : Nat → Option (Int × Int) := fun i => some ((3 : Int) + 2 * i, (4 : Int) + 2 * i)

/-- A table with a single live registration for signal 5 in slot 0 (prior
disposition `user 9` recorded there, table handler installed at OS level). -/
def cstA : TableState :=
  { slots := fun i => if i = 0 then { signum := 5, handler := Disp.user 9, have_handler := 1 } else {},
    os := fun n => if n = 5 then Disp.tableHandler else Disp.dfl,
    sigOk := fun _ => true }

/-- A table with two live registrations for signal 5 (slots 0 and 1), both
holding the recorded prior disposition `user 9`. -/
def cstTwo : TableState :=
  { slots := fun i =>
      if i = 0 then { signum := 5, handler := Disp.user 9, have_handler := 1 }
      else if i = 1 then { signum := 5, handler := Disp.user 9, have_handler := 1 }
      else {},
    os := fun n => if n = 5 then Disp.tableHandler else Disp.dfl,
    sigOk := fun _ => true }

/-- A completely empty table. -/
def cstEmpty : TableState :=
  { slots := fun _ => {}, os := fun _ => Disp.dfl, sigOk := fun _ => true }

/-- The state obtained from `cstA` by uninstalling the (sole) registration in
slot 0: slot 0 is now a freed slot. -/
def cstFreed : TableState := (Mono_Unix_UnixSignal_uninstall cstA (some 0)).1

/-- A table whose slots 0 and 1 are armed registrations for signal 5 with
read fds 3 and 5 (as during an active WaitAny over both). -/
def cstArm : TableState :=
  { slots := fun i =>
      if i = 0 then { signum := 5, handler := Disp.user 9, have_handler := 1,
                      read_fd := 3, write_fd := 4 }
      else if i = 1 then { signum := 5, handler := Disp.user 9, have_handler := 1,
                           read_fd := 5, write_fd := 6 }
      else {},
    os := fun n => if n = 5 then Disp.tableHandler else Disp.dfl,
    sigOk := fun _ => true }

/-- A table for the dispatch-handler fan-out scenarios: slot 0 is a waited
registration for signal 5 (write fd 7 armed), slot 1 an unwaited registration
for signal 5, slot 2 a registration for signal 3. -/
def cstFan : TableState :=
  { slots := fun i =>
      if i = 0 then { signum := 5, handler := Disp.user 9, have_handler := 1, write_fd := 7 }
      else if i = 1 then { signum := 5, handler := Disp.user 9, have_handler := 1 }
      else if i = 2 then { signum := 3, handler := Disp.ign, have_handler := 1 }
      else {},
    os := fun n => if n = 5 ∨ n = 3 then Disp.tableHandler else Disp.dfl,
    sigOk := fun _ => true }

/-- The per-slot effect of one dispatch-handler pass on a slot: a matching
slot gets its count incremented, any other slot is untouched. -/
def bumpIf (s : Int) (h : SlotInfo) : SlotInfo :=
  if h.signum = s then { h with count := h.count + 1 } else h

/-- First index (in input order) of a handle whose armed read fd is in the
ready set — the index `wait_for_any` reports. -/
def findFire (st : TableState) (R : List Int) : List Nat → Option Nat
  | [] => none
  | h :: rest =>
    if (st.slots h).read_fd ∈ R then some 0
    else (findFire st R rest).map (· + 1)

/-- C1's claimed property of an action trace: some lock release occurs
strictly before some blocking wait. -/
def releasedBeforeWait (evs : List Act) : Prop :=
  ∃ i < evs.length, ∃ j < evs.length, i < j ∧
    evs.getD i Act.lockAcquire = Act.lockRelease ∧
    evs.getD j Act.lockAcquire = Act.blockingWait

instance (evs : List Act) : Decidable (releasedBeforeWait evs) := by
  unfold releasedBeforeWait; infer_instance

/-- The state after `setup_pipes` arms slot `h` with the pipe fds `p`. -/
def armState (st : TableState) (h : Nat) (p : Int × Int) : TableState :=
  { st with slots := Function.update st.slots h { st.slots h with read_fd := p.1, write_fd := p.2 } }

/-- The state after `teardown_pipes` clears slot `h`'s pipe fds. -/
def disarmState (st : TableState) (h : Nat) : TableState :=
  { st with slots := Function.update st.slots h { st.slots h with read_fd := 0, write_fd := 0 } }

/-! Characterization of the dispatch handler loop. -/

theorem handlerStep_fst (st : TableState) (s : Int) (i : Nat) :
    (handlerStep st s i).1 =
      { st with slots := Function.update st.slots i (bumpIf s (st.slots i)) } := by
  unfold handlerStep bumpIf
  by_cases h : (st.slots i).signum = s
  · simp only [h, if_true]
    by_cases hw : (st.slots i).write_fd > 0 <;> simp [hw]
  · simp only [h, if_false, Function.update_eq_self]

theorem handlerStep_os (st : TableState) (s : Int) (i : Nat) :
    (handlerStep st s i).1.os = st.os := by
  rw [handlerStep_fst]

theorem handlerLoop_succ (st : TableState) (s : Int) (n : Nat) :
    handlerLoop st s (n + 1) =
      ((handlerStep (handlerLoop st s n).1 s n).1,
       (handlerLoop st s n).2 ++ (handlerStep (handlerLoop st s n).1 s n).2) := rfl

theorem handlerLoop_os (st : TableState) (s : Int) (n : Nat) :
    (handlerLoop st s n).1.os = st.os := by
  induction n with
  | zero => rfl
  | succ n ih => rw [handlerLoop_succ]; rw [handlerStep_os, ih]

theorem handlerLoop_slots (st : TableState) (s : Int) (n : Nat) (j : Nat) :
    (handlerLoop st s n).1.slots j =
      if j < n then bumpIf s (st.slots j) else st.slots j := by
  induction n with
  | zero => simp [handlerLoop]
  | succ n ih =>
    rw [handlerLoop_succ]
    rw [handlerStep_fst]
    by_cases hj : j = n
    · subst hj
      simp only [Function.update_same, ih]
      simp [lt_irrefl]
    · simp only [Function.update_noteq hj, ih]
      rcases lt_trichotomy j n with h | h | h
      · simp [h, Nat.lt_succ_of_lt h]
      · exact absurd h hj
      · have h1 : ¬ j < n := by omega
        have h2 : ¬ j < n + 1 := by omega
        simp [h1, h2]

theorem handlerStep_snd (st : TableState) (s : Int) (i : Nat) :
    (handlerStep st s i).2 =
      if (st.slots i).signum = s ∧ (st.slots i).write_fd > 0
      then [Act.pipeWrite (st.slots i).write_fd] else [] := by
  unfold handlerStep
  by_cases h : (st.slots i).signum = s
  · simp only [h, if_true, true_and]
    by_cases hw : (st.slots i).write_fd > 0 <;> simp [hw]
  · simp [h]

theorem handlerLoop_events (st : TableState) (s : Int) (n : Nat) :
    (handlerLoop st s n).2 =
      ((List.range n).filter
        (fun i => decide ((st.slots i).signum = s) && decide ((st.slots i).write_fd > 0))).map
        (fun i => Act.pipeWrite ((st.slots i).write_fd)) := by
  induction n with
  | zero => rfl
  | succ n ih =>
    rw [handlerLoop_succ]
    rw [List.range_succ, List.filter_append, List.map_append, ← ih]
    have hslot : (handlerLoop st s n).1.slots n = st.slots n := by
      rw [handlerLoop_slots]; simp [lt_irrefl]
    rw [handlerStep_snd, hslot]
    by_cases h : (st.slots n).signum = s ∧ (st.slots n).write_fd > 0
    · simp [h.1, h.2]
    · rcases Decidable.not_and_iff_or_not.mp h with h1 | h1 <;> simp [h, h1]

theorem default_handler_slots (st : TableState) (s : Int) (j : Nat) :
    (default_handler st s).1.slots j =
      if j < NUM_SIGNALS then bumpIf s (st.slots j) else st.slots j :=
  handlerLoop_slots st s NUM_SIGNALS j

theorem bumpIf_signum (s : Int) (h : SlotInfo) : (bumpIf s h).signum = h.signum := by
  unfold bumpIf; split <;> rfl

theorem bumpIf_write_fd (s : Int) (h : SlotInfo) : (bumpIf s h).write_fd = h.write_fd := by
  unfold bumpIf; split <;> rfl

theorem bumpIf_count (s : Int) (h : SlotInfo) :
    (bumpIf s h).count = h.count + (if h.signum = s then 1 else 0) := by
  unfold bumpIf; split <;> simp

theorem deliverN_succ (st : TableState) (s : Int) (N : Nat) :
    deliverN st s (N + 1) =
      ((default_handler (deliverN st s N).1 s).1,
       (deliverN st s N).2 ++ (default_handler (deliverN st s N).1 s).2) := rfl

theorem deliverN_slots (st : TableState) (s : Int) (N : Nat) (j : Nat) (hj : j < NUM_SIGNALS) :
    ((deliverN st s N).1.slots j).signum = (st.slots j).signum ∧
    ((deliverN st s N).1.slots j).write_fd = (st.slots j).write_fd ∧
    ((deliverN st s N).1.slots j).count =
      (st.slots j).count + (if (st.slots j).signum = s then (N : Int) else 0) := by
  induction N with
  | zero => simp [deliverN]
  | succ N ih =>
    rw [deliverN_succ]
    simp only [default_handler_slots, hj, if_true]
    obtain ⟨ihs, ihw, ihc⟩ := ih
    refine ⟨by rw [bumpIf_signum, ihs], by rw [bumpIf_write_fd, ihw], ?_⟩
    rw [bumpIf_count, ihc, ihs]
    by_cases h : (st.slots j).signum = s
    · simp only [h, if_true]; push_cast; ring
    · simp [h]

theorem deliverN_events (st : TableState) (s : Int) (N : Nat)
    (hw : ∀ i, i < NUM_SIGNALS → (st.slots i).signum = s → (st.slots i).write_fd = 0) :
    (deliverN st s N).2 = [] := by
  induction N with
  | zero => rfl
  | succ N ih =>
    rw [deliverN_succ]
    rw [ih, List.nil_append]
    unfold default_handler
    rw [handlerLoop_events]
    have hfil : ((List.range NUM_SIGNALS).filter
        (fun i => decide (((deliverN st s N).1.slots i).signum = s) &&
          decide (((deliverN st s N).1.slots i).write_fd > 0))) = [] := by
      rw [List.filter_eq_nil_iff]
      intro i hi
      have hi64 : i < NUM_SIGNALS := List.mem_range.mp hi
      obtain ⟨hs, hwfd, _⟩ := deliverN_slots st s N i hi64
      simp only [Bool.and_eq_true, decide_eq_true_eq, not_and]
      intro hmatch
      rw [hwfd, hw i hi64 (by rw [← hs]; exact hmatch)]
      omega
    rw [hfil]
    rfl

/-! Characterization of the multi-wait engine. -/

theorem setup_pipes_nil (st : TableState) (pr : Nat → Option (Int × Int))
    (idx : Nat) (r m : Int) (fds : List Int) :
    setup_pipes st [] pr idx r m fds = (st, r, m, fds, []) := rfl

theorem setup_pipes_cons_some (st : TableState) (h : Nat) (rest : List Nat)
    (pr : Nat → Option (Int × Int)) (idx : Nat) (r m : Int) (fds : List Int)
    (p : Int × Int) (hpr : pr idx = some p) :
    (setup_pipes st (h :: rest) pr idx r m fds).2.2.2.2 =
      Act.armPipe h ::
        (setup_pipes (armState st h p) rest pr (idx + 1) 0
          (if p.1 > m then p.1 else m) (fds ++ [p.1])).2.2.2.2 := by
  conv_lhs => rw [setup_pipes]
  rw [hpr]
  rfl

theorem setup_pipes_events_arm :
    ∀ (hs : List Nat) (st : TableState) (pr : Nat → Option (Int × Int)) (idx : Nat)
      (r m : Int) (fds : List Int) (e : Act),
      e ∈ (setup_pipes st hs pr idx r m fds).2.2.2.2 → ∃ h, e = Act.armPipe h := by
  intro hs
  induction hs with
  | nil => intro st pr idx r m fds e he; rw [setup_pipes_nil] at he; simp at he
  | cons h rest ih =>
    intro st pr idx r m fds e he
    cases hpr : pr idx with
    | none =>
      unfold setup_pipes at he; rw [hpr] at he; simp at he
    | some p =>
      rw [setup_pipes_cons_some st h rest pr idx r m fds p hpr] at he
      rcases List.mem_cons.mp he with he | he
      · exact ⟨h, he⟩
      · exact ih _ _ _ _ _ _ _ he

theorem teardown_pipes_cons (st : TableState) (h : Nat) (rest : List Nat) :
    (teardown_pipes st (h :: rest)).2 =
      ((if (st.slots h).read_fd ≠ 0 then [Act.closeFd (st.slots h).read_fd] else []) ++
       (if (st.slots h).write_fd ≠ 0 then [Act.closeFd (st.slots h).write_fd] else [])) ++
      (teardown_pipes (disarmState st h) rest).2 := rfl

theorem teardown_pipes_events_close :
    ∀ (hs : List Nat) (st : TableState) (e : Act),
      e ∈ (teardown_pipes st hs).2 → ∃ fd, e = Act.closeFd fd := by
  intro hs
  induction hs with
  | nil => intro st e he; simp [teardown_pipes] at he
  | cons h rest ih =>
    intro st e he
    rw [teardown_pipes_cons] at he
    rcases List.mem_append.mp he with he | he
    · rcases List.mem_append.mp he with he | he
      · by_cases hr : (st.slots h).read_fd ≠ 0
        · rw [if_pos hr] at he
          exact ⟨(st.slots h).read_fd, List.mem_singleton.mp he⟩
        · rw [if_neg hr] at he; simp at he
      · by_cases hw : (st.slots h).write_fd ≠ 0
        · rw [if_pos hw] at he
          exact ⟨(st.slots h).write_fd, List.mem_singleton.mp he⟩
        · rw [if_neg hw] at he; simp at he
    · exact ih _ _ he

theorem drainScan_snd (st : TableState) (R : List Int) :
    ∀ (hs : List Nat) (i : Nat) (idx : Int),
      (drainScan st R hs i idx).2 =
        (hs.filter (fun h => decide ((st.slots h).read_fd ∈ R))).map
          (fun h => Act.pipeRead (st.slots h).read_fd) := by
  intro hs
  induction hs with
  | nil => intro i idx; rfl
  | cons h rest ih =>
    intro i idx
    unfold drainScan
    by_cases hr : (st.slots h).read_fd ∈ R
    · simp only [hr, if_true, List.filter_cons, decide_eq_true_eq]
      simp only [List.map_cons, ih]
    · simp only [hr, if_false, List.filter_cons, decide_eq_true_eq]
      simp only [ih]

theorem drainScan_fst_ne (st : TableState) (R : List Int) :
    ∀ (hs : List Nat) (i : Nat) (idx : Int), idx ≠ -1 →
      (drainScan st R hs i idx).1 = idx := by
  intro hs
  induction hs with
  | nil => intro i idx _; rfl
  | cons h rest ih =>
    intro i idx hidx
    unfold drainScan
    by_cases hr : (st.slots h).read_fd ∈ R
    · simp only [hr, if_true, if_neg hidx]
      exact ih (i + 1) idx hidx
    · simp only [hr, if_false]
      exact ih (i + 1) idx hidx

theorem drainScan_fst_none (st : TableState) (R : List Int) :
    ∀ (hs : List Nat) (i : Nat), findFire st R hs = none →
      (drainScan st R hs i (-1)).1 = -1 := by
  intro hs
  induction hs with
  | nil => intro i _; rfl
  | cons h rest ih =>
    intro i hf
    unfold findFire at hf
    unfold drainScan
    by_cases hr : (st.slots h).read_fd ∈ R
    · rw [if_pos hr] at hf; exact absurd hf (by simp)
    · rw [if_neg hr] at hf
      simp only [hr, if_false]
      exact ih (i + 1) (Option.map_eq_none.mp hf)

theorem drainScan_fst_some (st : TableState) (R : List Int) :
    ∀ (hs : List Nat) (i : Nat) (j : Nat), findFire st R hs = some j →
      (drainScan st R hs i (-1)).1 = ((i + j : Nat) : Int) := by
  intro hs
  induction hs with
  | nil => intro i j hf; simp [findFire] at hf
  | cons h rest ih =>
    intro i j hf
    unfold findFire at hf
    unfold drainScan
    by_cases hr : (st.slots h).read_fd ∈ R
    · rw [if_pos hr] at hf
      have hj : j = 0 := by simpa using hf.symm
      subst hj
      simp only [hr, if_true, if_pos rfl]
      rw [drainScan_fst_ne st R rest (i + 1) (i : Int) (by omega)]
      simp
    · rw [if_neg hr] at hf
      rcases Option.map_eq_some.mp hf with ⟨j0, hj0, hj⟩
      simp only [hr, if_false]
      rw [ih (i + 1) j0 hj0]
      congr 1
      omega

theorem findFire_spec (st : TableState) (R : List Int) :
    ∀ (hs : List Nat) (j : Nat), findFire st R hs = some j →
      j < hs.length ∧ (st.slots (hs.getD j 0)).read_fd ∈ R ∧
      ∀ m, m < j → (st.slots (hs.getD m 0)).read_fd ∉ R := by
  intro hs
  induction hs with
  | nil => intro j hf; simp [findFire] at hf
  | cons h rest ih =>
    intro j hf
    unfold findFire at hf
    by_cases hr : (st.slots h).read_fd ∈ R
    · rw [if_pos hr] at hf
      have hj : j = 0 := by simpa using hf.symm
      subst hj
      exact ⟨by simp, by simpa using hr, fun m hm => absurd hm (by omega)⟩
    · rw [if_neg hr] at hf
      rcases Option.map_eq_some.mp hf with ⟨j0, hj0, hj⟩
      subst hj
      obtain ⟨hlen, hmem, hmin⟩ := ih j0 hj0
      refine ⟨by simpa using hlen, by simpa using hmem, ?_⟩
      intro m hm
      cases m with
      | zero => simpa using hr
      | succ m => simpa using hmin m (by omega)

theorem wait_for_any_timedOut (st : TableState) (hs : List Nat) (t : Int) :
    wait_for_any st hs t SelectOutcome.timedOut = (t, [Act.blockingWait]) := rfl

theorem wait_for_any_failed (st : TableState) (hs : List Nat) (t e : Int) :
    wait_for_any st hs t (SelectOutcome.failed e) = (-1, [Act.blockingWait]) := rfl

theorem wait_for_any_ready (st : TableState) (hs : List Nat) (t : Int) (R : List Int) :
    wait_for_any st hs t (SelectOutcome.ready R) =
      ((drainScan st R hs 0 (-1)).1, Act.blockingWait :: (drainScan st R hs 0 (-1)).2) := rfl

theorem wait_for_any_events_shape (st : TableState) (hs : List Nat) (t : Int)
    (oc : SelectOutcome) (e : Act) (he : e ∈ (wait_for_any st hs t oc).2) :
    e = Act.blockingWait ∨ ∃ fd, e = Act.pipeRead fd := by
  cases oc with
  | timedOut => rw [wait_for_any_timedOut] at he; left; simpa using he
  | failed x => rw [wait_for_any_failed] at he; left; simpa using he
  | ready R =>
    rw [wait_for_any_ready] at he
    rcases List.mem_cons.mp he with he | he
    · left; exact he
    · right
      rw [drainScan_snd] at he
      rcases List.mem_map.mp he with ⟨h, _, hh⟩
      exact ⟨(st.slots h).read_fd, hh.symm⟩

/-! Unfolding lemmas for install. -/

theorem install_no_free (st : TableState) (sig : Int)
    (h : (List.range NUM_SIGNALS).find? (fun i => (st.slots i).signum == 0) = none) :
    Mono_Unix_UnixSignal_install st sig = (st, none, []) := by
  simp only [Mono_Unix_UnixSignal_install, h]

theorem install_success (st : TableState) (sig : Int) (k : Nat)
    (hk : (List.range NUM_SIGNALS).find? (fun i => (st.slots i).signum == 0) = some k)
    (hok : st.sigOk sig = true) :
    Mono_Unix_UnixSignal_install st sig =
      ({ st with os := Function.update st.os sig Disp.tableHandler,
                 slots := Function.update st.slots k (installedSlot st sig k) },
       some k, [Act.sigCall sig, Act.setCount k 0, Act.setSignum k sig]) := by
  simp only [Mono_Unix_UnixSignal_install, hk, hok, if_true]
  rfl

theorem install_sig_fail (st : TableState) (sig : Int) (k : Nat)
    (hk : (List.range NUM_SIGNALS).find? (fun i => (st.slots i).signum == 0) = some k)
    (hok : st.sigOk sig = false) :
    Mono_Unix_UnixSignal_install st sig =
      ({ st with slots := Function.update st.slots k (nulledSlot (st.slots k)) },
       none, [Act.sigCall sig]) := by
  simp only [Mono_Unix_UnixSignal_install, hk, hok]
  rfl

theorem priorRecorded_eq_os (st : TableState) (sig : Int)
    (hnone : ∀ i, i < NUM_SIGNALS → (st.slots i).signum ≠ sig) :
    priorRecorded st sig = st.os sig := by
  unfold priorRecorded
  rw [List.find?_eq_none.mpr]
  intro i hi
  have : (st.slots i).signum ≠ sig := hnone i (List.mem_range.mp hi)
  simp [this]

theorem priorRecorded_eq_recorded (st : TableState) (sig : Int) (j : Nat)
    (hj : (List.range NUM_SIGNALS).find? (fun i =>
        (st.slots i).signum == sig && !((st.slots i).handler == Disp.tableHandler)) = some j) :
    priorRecorded st sig = (st.slots j).handler := by
  unfold priorRecorded
  rw [hj]

/-! Counting lemmas for `count_handlers`. -/

theorem length_filter_update_pos (f : Nat → SlotInfo) (k : Nat) (v : SlotInfo)
    (p : SlotInfo → Bool) (hold : p (f k) = false) (hnew : p v = true) :
    ∀ n, k < n →
      ((List.range n).filter (fun i => p (Function.update f k v i))).length =
        ((List.range n).filter (fun i => p (f i))).length + 1 := by
  intro n
  induction n with
  | zero => omega
  | succ n ih =>
    intro hk
    rw [List.range_succ, List.filter_append, List.filter_append,
        List.length_append, List.length_append]
    by_cases hkn : k = n
    · subst hkn
      have hfil : (List.range k).filter (fun i => p (Function.update f k v i)) =
          (List.range k).filter (fun i => p (f i)) := by
        apply List.filter_congr
        intro i hi
        have : i ≠ k := by have := List.mem_range.mp hi; omega
        rw [Function.update_noteq this]
      rw [hfil]
      simp [Function.update_same, hnew, hold]
    · have hkn' : k < n := by omega
      rw [ih hkn']
      have : Function.update f k v n = f n := Function.update_noteq (by omega) v f
      simp only [List.filter_cons, List.filter_nil, this]
      omega

theorem count_handlers_update_new (st : TableState) (sig : Int) (k : Nat) (v : SlotInfo)
    (hk : k < NUM_SIGNALS) (h0 : (st.slots k).signum = 0) (hsig : sig ≠ 0)
    (hv : v.signum = sig) :
    ((List.range NUM_SIGNALS).filter
        (fun i => (Function.update st.slots k v i).signum == sig)).length =
      count_handlers st sig + 1 := by
  unfold count_handlers
  exact length_filter_update_pos st.slots k v (fun h => h.signum == sig)
    (by simp [h0]; omega) (by simp [hv]) NUM_SIGNALS hk

theorem count_handlers_zero (st : TableState) (sig : Int)
    (h : count_handlers st sig = 0) :
    ∀ i, i < NUM_SIGNALS → (st.slots i).signum ≠ sig := by
  intro i hi hcontra
  unfold count_handlers at h
  rw [List.length_eq_zero, List.filter_eq_nil_iff] at h
  exact absurd (by simp [hcontra]) (h i (List.mem_range.mpr hi))

theorem count_handlers_ne_zero (st : TableState) (sig : Int)
    (h : count_handlers st sig ≠ 0) :
    ∃ i, i < NUM_SIGNALS ∧ (st.slots i).signum = sig := by
  unfold count_handlers at h
  have hne : (List.range NUM_SIGNALS).filter (fun i => (st.slots i).signum == sig) ≠ [] := by
    intro hnil; rw [hnil] at h; exact h rfl
  rcases List.exists_mem_of_ne_nil _ hne with ⟨i, hi⟩
  have := List.mem_filter.mp hi
  exact ⟨i, List.mem_range.mp this.1, by simpa using this.2⟩

/-! Unfolding lemmas for uninstall. -/

theorem uninstall_none (st : TableState) :
    Mono_Unix_UnixSignal_uninstall st none = (st, -1, some EINVAL) := rfl

theorem uninstall_out_of_range (st : TableState) (q : Int)
    (hq : q < 0 ∨ (NUM_SIGNALS : Int) < q) :
    Mono_Unix_UnixSignal_uninstall st (some q) = (st, -1, some EINVAL) := by
  simp only [Mono_Unix_UnixSignal_uninstall, if_pos hq]

theorem uninstall_valid_last (st : TableState) (p : Nat) (hp : p ≤ NUM_SIGNALS)
    (hcond : (st.slots p).have_handler ≠ 0 ∧ count_handlers st (st.slots p).signum = 1) :
    Mono_Unix_UnixSignal_uninstall st (some (p : Int)) =
      ({ st with
          os := if st.sigOk (st.slots p).signum
                then Function.update st.os (st.slots p).signum (st.slots p).handler
                else st.os,
          slots := Function.update st.slots p (clearedSlot (st.slots p)) },
       if st.sigOk (st.slots p).signum then 0 else -1, none) := by
  have hrange : ¬((p : Int) < 0 ∨ (NUM_SIGNALS : Int) < (p : Int)) := by
    unfold NUM_SIGNALS at hp ⊢; omega
  simp only [Mono_Unix_UnixSignal_uninstall, if_neg hrange, Int.toNat_natCast, if_pos hcond]

theorem uninstall_valid_other (st : TableState) (p : Nat) (hp : p ≤ NUM_SIGNALS)
    (hcond : ¬((st.slots p).have_handler ≠ 0 ∧ count_handlers st (st.slots p).signum = 1)) :
    Mono_Unix_UnixSignal_uninstall st (some (p : Int)) =
      ({ st with slots := Function.update st.slots p (freedSlot (st.slots p)) },
       -1, none) := by
  have hrange : ¬((p : Int) < 0 ∨ (NUM_SIGNALS : Int) < (p : Int)) := by
    unfold NUM_SIGNALS at hp ⊢; omega
  simp only [Mono_Unix_UnixSignal_uninstall, if_neg hrange, Int.toNat_natCast, if_neg hcond]

theorem uninstall_last_os (st : TableState) (p : Nat) (hp : p ≤ NUM_SIGNALS)
    (sig : Int) (hsg : (st.slots p).signum = sig)
    (hh : (st.slots p).have_handler ≠ 0) (hc : count_handlers st sig = 1)
    (hok2 : st.sigOk sig = true) :
    (Mono_Unix_UnixSignal_uninstall st (some (p : Int))).1.os =
      Function.update st.os sig (st.slots p).handler := by
  rw [uninstall_valid_last st p hp ⟨hh, by rw [hsg]; exact hc⟩]
  show (if st.sigOk (st.slots p).signum = true
        then Function.update st.os (st.slots p).signum (st.slots p).handler
        else st.os) = _
  rw [hsg, if_pos hok2]

theorem uninstall_other_os (st : TableState) (p : Nat) (hp : p ≤ NUM_SIGNALS)
    (hcond : ¬((st.slots p).have_handler ≠ 0 ∧ count_handlers st (st.slots p).signum = 1)) :
    (Mono_Unix_UnixSignal_uninstall st (some (p : Int))).1.os = st.os := by
  rw [uninstall_valid_other st p hp hcond]

theorem uninstall_valid_slot_signum (st : TableState) (p : Nat) (hp : p ≤ NUM_SIGNALS) :
    ((Mono_Unix_UnixSignal_uninstall st (some (p : Int))).1.slots p).signum = 0 := by
  by_cases hcond : (st.slots p).have_handler ≠ 0 ∧ count_handlers st (st.slots p).signum = 1
  · rw [uninstall_valid_last st p hp hcond]
    show ((Function.update st.slots p (clearedSlot (st.slots p))) p).signum = 0
    rw [Function.update_same]
    rfl
  · rw [uninstall_valid_other st p hp hcond]
    show ((Function.update st.slots p (freedSlot (st.slots p))) p).signum = 0
    rw [Function.update_same]
    rfl

theorem waitAny_eq (st : TableState) (hs : List Nat) (t r0 : Int)
    (pr : Nat → Option (Int × Int)) (oc : SelectOutcome) :
    Mono_Unix_UnixSignal_WaitAny st hs t r0 pr oc =
      ((teardown_pipes (setup_pipes st hs pr 0 r0 0 []).1 hs).1,
       (if (setup_pipes st hs pr 0 r0 0 []).2.1 = 0
        then wait_for_any (setup_pipes st hs pr 0 r0 0 []).1 hs t oc
        else ((setup_pipes st hs pr 0 r0 0 []).2.1, [])).1,
       Act.lockAcquire ::
         ((setup_pipes st hs pr 0 r0 0 []).2.2.2.2 ++
          ((if (setup_pipes st hs pr 0 r0 0 []).2.1 = 0
            then wait_for_any (setup_pipes st hs pr 0 r0 0 []).1 hs t oc
            else ((setup_pipes st hs pr 0 r0 0 []).2.1, [])).2 ++
           (teardown_pipes (setup_pipes st hs pr 0 r0 0 []).1 hs).2)) ++
         [Act.lockRelease]) := rfl

/-- C1 (corrected), counterexample: in a concrete `WaitAny` call (one handle,
timeout 100 ms, select reporting timeout) the full action trace is the lock
acquisition, pipe arming, the blocking wait, the pipe teardown and only then
the lock release — no lock release precedes the blocking wait, refuting the
claim that the lock is released before the blocking readiness wait begins. -/
theorem c1_counterexample :
    (Mono_Unix_UnixSignal_WaitAny cstA [0] 100 0 prA SelectOutcome.timedOut).2.2 =
      [Act.lockAcquire, Act.armPipe 0, Act.blockingWait, Act.closeFd 3, Act.closeFd 4,
       Act.lockRelease] ∧
    ¬ releasedBeforeWait
      (Mono_Unix_UnixSignal_WaitAny cstA [0] 100 0 prA SelectOutcome.timedOut).2.2 :=
  ⟨by decide, by decide⟩

/-- C1 (corrected), amended: the table lock is held across the whole of
`WaitAny` — the trace of every call is the lock acquisition, then a body
containing the arming, the blocking wait and the teardown but no lock
operation at all, then the lock release as the final action; the dispatch
handler can nevertheless fire concurrently because its own trace never
contains a lock operation (it is lock-free by construction). -/
theorem c1_lock_held_across_wait (st : TableState) (hs : List Nat) (t r0 : Int)
    (pr : Nat → Option (Int × Int)) (oc : SelectOutcome) :
    (∃ body, (Mono_Unix_UnixSignal_WaitAny st hs t r0 pr oc).2.2 =
        Act.lockAcquire :: body ++ [Act.lockRelease] ∧
        Act.lockAcquire ∉ body ∧ Act.lockRelease ∉ body) ∧
    (∀ (st2 : TableState) (s : Int),
        Act.lockAcquire ∉ (default_handler st2 s).2 ∧
        Act.lockRelease ∉ (default_handler st2 s).2) := by
  constructor
  · refine ⟨(setup_pipes st hs pr 0 r0 0 []).2.2.2.2 ++
      ((if (setup_pipes st hs pr 0 r0 0 []).2.1 = 0
        then wait_for_any (setup_pipes st hs pr 0 r0 0 []).1 hs t oc
        else ((setup_pipes st hs pr 0 r0 0 []).2.1, [])).2 ++
       (teardown_pipes (setup_pipes st hs pr 0 r0 0 []).1 hs).2), ?_, ?_, ?_⟩
    · rw [waitAny_eq]
    all_goals
      intro hmem
      rcases List.mem_append.mp hmem with hm | hm
      · rcases setup_pipes_events_arm hs st pr 0 r0 0 [] _ hm with ⟨x, hx⟩
        exact absurd hx (by simp)
      · rcases List.mem_append.mp hm with hm2 | hm2
        · by_cases hr : (setup_pipes st hs pr 0 r0 0 []).2.1 = 0
          · rw [if_pos hr] at hm2
            rcases wait_for_any_events_shape _ hs t oc _ hm2 with hx | ⟨fd, hx⟩ <;>
              exact absurd hx (by simp)
          · rw [if_neg hr] at hm2
            simp at hm2
        · rcases teardown_pipes_events_close hs _ _ hm2 with ⟨fd, hx⟩
          exact absurd hx (by simp)
  · intro st2 s
    constructor <;>
      · intro hmem
        unfold default_handler at hmem
        rw [handlerLoop_events] at hmem
        rcases List.mem_map.mp hmem with ⟨i, _, hx⟩
        exact absurd hx.symm (by simp)

/-- C5 (corrected), counterexample: on a table that already holds a live
registration for signal 5 (slot 0 of `cstA`), a second `install 5` does copy
the recorded prior disposition `user 9` into the new slot 1, but its action
trace contains the `signal()` call — the OS-level handler-installation
primitive IS invoked again (at the moment the free slot is claimed, before
the copy overwrites its return value), refuting the claim that it is not. -/
theorem c5_counterexample :
    (Mono_Unix_UnixSignal_install cstA 5).2.1 = some 1 ∧
    ((Mono_Unix_UnixSignal_install cstA 5).1.slots 1).handler = Disp.user 9 ∧
    Act.sigCall 5 ∈ (Mono_Unix_UnixSignal_install cstA 5).2.2 :=
  ⟨by decide, by decide, by decide⟩

/-- C5 (corrected), amended: when a registration for `sig` is already live in
the table (first matching slot `j`), a subsequent `install sig` that claims
free slot `k` copies slot `j`'s recorded prior disposition into the new slot;
the OS-level installation primitive `signal()` is nevertheless invoked again
on claiming the slot — redundantly, since with the table's handler already
installed at the OS level the re-installation leaves the OS disposition table
pointwise unchanged, and the copy overwrites the value it returned. -/
theorem c5_install_shared_copies (st : TableState) (sig : Int) (k j : Nat)
    (hfree : (List.range NUM_SIGNALS).find? (fun i => (st.slots i).signum == 0) = some k)
    (hj : (List.range NUM_SIGNALS).find? (fun i =>
        (st.slots i).signum == sig && !((st.slots i).handler == Disp.tableHandler)) = some j)
    (hok : st.sigOk sig = true)
    (hos : st.os sig = Disp.tableHandler) :
    (Mono_Unix_UnixSignal_install st sig).2.1 = some k ∧
    ((Mono_Unix_UnixSignal_install st sig).1.slots k).handler = (st.slots j).handler ∧
    (∀ n, (Mono_Unix_UnixSignal_install st sig).1.os n = st.os n) ∧
    Act.sigCall sig ∈ (Mono_Unix_UnixSignal_install st sig).2.2 := by
  rw [install_success st sig k hfree hok]
  refine ⟨rfl, ?_, ?_, ?_⟩
  · simp only [Function.update_same]
    unfold installedSlot
    exact priorRecorded_eq_recorded st sig j hj
  · intro n
    simp only [Function.update_apply]
    by_cases hn : n = sig
    · subst hn; simp [hos]
    · simp [hn]
  · simp

/-- Witness for C5's amended theorem on `cstA` (live registration for signal
5 in slot 0, free slot 1). -/
theorem c5_witness :
    ((List.range NUM_SIGNALS).find? (fun i => (cstA.slots i).signum == 0) = some 1 ∧
     (List.range NUM_SIGNALS).find? (fun i =>
        (cstA.slots i).signum == 5 && !((cstA.slots i).handler == Disp.tableHandler)) = some 0 ∧
     cstA.sigOk 5 = true ∧ cstA.os 5 = Disp.tableHandler) ∧
    (((Mono_Unix_UnixSignal_install cstA 5).1.slots 1).handler = (cstA.slots 0).handler ∧
     Act.sigCall 5 ∈ (Mono_Unix_UnixSignal_install cstA 5).2.2) :=
  ⟨⟨by decide, by decide, by decide, by decide⟩,
   (c5_install_shared_copies cstA 5 1 0 (by decide) (by decide) (by decide) (by decide)).2.1,
   (c5_install_shared_copies cstA 5 1 0 (by decide) (by decide) (by decide)
     (by decide)).2.2.2⟩

/-- C9 (confirmed): a successful `install sig` immediately followed by
`uninstall` of the returned handle restores `sig`'s OS-level disposition to
exactly the value it had before the install.  When the new registration is
the sole one for `sig`, the disposition captured at install time (the return
value of the `signal()` call) is exactly the value `uninstall` reinstalls;
when other registrations for `sig` already existed (so the OS already ran
the table's handler — hypothesis `hinv`), neither call changes the OS
disposition.  In both cases the slot is freed again. -/
theorem c9_install_uninstall_roundtrip (st : TableState) (sig : Int) (k : Nat)
    (hsig : sig ≠ 0)
    (hfree : (List.range NUM_SIGNALS).find? (fun i => (st.slots i).signum == 0) = some k)
    (hok : st.sigOk sig = true)
    (hinv : (∃ i, i < NUM_SIGNALS ∧ (st.slots i).signum = sig) →
      st.os sig = Disp.tableHandler) :
    (Mono_Unix_UnixSignal_install st sig).2.1 = some k ∧
    (Mono_Unix_UnixSignal_uninstall (Mono_Unix_UnixSignal_install st sig).1
        (some (k : Int))).1.os sig = st.os sig ∧
    ((Mono_Unix_UnixSignal_uninstall (Mono_Unix_UnixSignal_install st sig).1
        (some (k : Int))).1.slots k).signum = 0 := by
  have hk64 : k < NUM_SIGNALS := List.mem_range.mp (List.mem_of_find?_eq_some hfree)
  have hk0 : (st.slots k).signum = 0 := by
    have := List.find?_some hfree
    simpa using this
  have hins : Mono_Unix_UnixSignal_install st sig =
      ({ st with os := Function.update st.os sig Disp.tableHandler,
                 slots := Function.update st.slots k (installedSlot st sig k) },
       some k, [Act.sigCall sig, Act.setCount k 0, Act.setSignum k sig]) :=
    install_success st sig k hfree hok
  rw [hins]
  have hslot1 : Function.update st.slots k (installedSlot st sig k) k
      = installedSlot st sig k := Function.update_same k _ _
  have hcount1 : count_handlers
      { st with os := Function.update st.os sig Disp.tableHandler,
                slots := Function.update st.slots k (installedSlot st sig k) } sig
      = count_handlers st sig + 1 :=
    count_handlers_update_new st sig k (installedSlot st sig k) hk64 hk0 hsig rfl
  have hsg1 : (Function.update st.slots k (installedSlot st sig k) k).signum = sig := by
    rw [hslot1]; rfl
  have hh1 : (Function.update st.slots k (installedSlot st sig k) k).have_handler ≠ 0 := by
    rw [hslot1]; simp [installedSlot]
  refine ⟨rfl, ?_, ?_⟩
  · by_cases hc0 : count_handlers st sig = 0
    · have hres := uninstall_last_os
        { st with os := Function.update st.os sig Disp.tableHandler,
                  slots := Function.update st.slots k (installedSlot st sig k) }
        k (by omega) sig hsg1 hh1 (by omega) hok
      rw [hres, Function.update_same]
      show (Function.update st.slots k (installedSlot st sig k) k).handler = st.os sig
      rw [hslot1]
      show priorRecorded st sig = st.os sig
      exact priorRecorded_eq_os st sig (count_handlers_zero st sig hc0)
    · have hcond : ¬((Function.update st.slots k (installedSlot st sig k) k).have_handler ≠ 0 ∧
          count_handlers
            { st with os := Function.update st.os sig Disp.tableHandler,
                      slots := Function.update st.slots k (installedSlot st sig k) }
            (Function.update st.slots k (installedSlot st sig k) k).signum = 1) := by
        rw [hsg1]
        rintro ⟨-, hc1⟩
        omega
      have hres := uninstall_other_os
        { st with os := Function.update st.os sig Disp.tableHandler,
                  slots := Function.update st.slots k (installedSlot st sig k) }
        k (by omega) hcond
      rw [hres]
      show Function.update st.os sig Disp.tableHandler sig = st.os sig
      rw [Function.update_same]
      rcases count_handlers_ne_zero st sig hc0 with ⟨i, hi, hisig⟩
      exact (hinv ⟨i, hi, hisig⟩).symm
  · exact uninstall_valid_slot_signum
      { st with os := Function.update st.os sig Disp.tableHandler,
                slots := Function.update st.slots k (installedSlot st sig k) }
      k (by omega)

/-- Witness for C9: installing signal 5 into the empty table and
uninstalling it again restores the default disposition. -/
theorem c9_witness :
    ((5 : Int) ≠ 0 ∧
     (List.range NUM_SIGNALS).find? (fun i => (cstEmpty.slots i).signum == 0) = some 0 ∧
     cstEmpty.sigOk 5 = true ∧
     ((∃ i, i < NUM_SIGNALS ∧ (cstEmpty.slots i).signum = 5) →
       cstEmpty.os 5 = Disp.tableHandler)) ∧
    (Mono_Unix_UnixSignal_uninstall (Mono_Unix_UnixSignal_install cstEmpty 5).1
        (some 0)).1.os 5 = cstEmpty.os 5 :=
  ⟨⟨by norm_num, by decide, by decide, by decide⟩,
   (c9_install_uninstall_roundtrip cstEmpty 5 0 (by norm_num) (by decide) (by decide)
     (by decide)).2.1⟩

/-- C10 (confirmed): every successful install returns a slot whose count is 0
— regardless of any stale count left in the slot by an earlier uninstall —
and the final atomic stores of install occur in the order: count reset to 0
first, signal-number publication second (the last two actions of the trace),
so the dispatch handler cannot match the new signal number before the
counter reset. -/
theorem c10_install_resets_count (st : TableState) (sig : Int) (k : Nat)
    (h : (Mono_Unix_UnixSignal_install st sig).2.1 = some k) :
    ((Mono_Unix_UnixSignal_install st sig).1.slots k).count = 0 ∧
    (Mono_Unix_UnixSignal_install st sig).2.2 =
      [Act.sigCall sig, Act.setCount k 0, Act.setSignum k sig] := by
  cases hf : (List.range NUM_SIGNALS).find? (fun i => (st.slots i).signum == 0) with
  | none =>
    rw [install_no_free st sig hf] at h
    simp at h
  | some k' =>
    by_cases hok : st.sigOk sig = true
    · rw [install_success st sig k' hf hok] at h ⊢
      have hkk : k' = k := by simpa using h
      subst hkk
      exact ⟨by simp [Function.update_same, installedSlot], rfl⟩
    · rw [install_sig_fail st sig k' hf (by simpa using hok)] at h
      simp at h

/-- Witness for C10: installing signal 5 into `cstFreed`, whose slot 0 was
freed by an earlier uninstall (and could hold a stale count), yields count 0
and the reset-then-publish action suffix. -/
theorem c10_witness :
    (Mono_Unix_UnixSignal_install cstFreed 5).2.1 = some 0 ∧
    (((Mono_Unix_UnixSignal_install cstFreed 5).1.slots 0).count = 0 ∧
     (Mono_Unix_UnixSignal_install cstFreed 5).2.2 =
       [Act.sigCall 5, Act.setCount 0 0, Act.setSignum 0 5]) :=
  ⟨by decide, c10_install_resets_count cstFreed 5 0 (by decide)⟩

theorem freedSlot_eq_self (h : SlotInfo) (hs : h.signum = 0) : freedSlot h = h := by
  cases h
  simp_all [freedSlot]

/-- C2 (corrected), counterexample: in a table with two live registrations for
signal 5 (slots 0 and 1), uninstalling slot 0 returns -1, not success — the
source only sets `r = 0` on the restore path taken by the last registration.
The other claimed effects do hold: the OS-level handler stays installed, the
slot is cleared and the sibling registration is untouched. -/
theorem c2_counterexample :
    (Mono_Unix_UnixSignal_uninstall cstTwo (some 0)).2.1 = -1 ∧
    ¬((Mono_Unix_UnixSignal_uninstall cstTwo (some 0)).2.1 = 0) ∧
    (Mono_Unix_UnixSignal_uninstall cstTwo (some 0)).1.os 5 = Disp.tableHandler ∧
    ((Mono_Unix_UnixSignal_uninstall cstTwo (some 0)).1.slots 0).signum = 0 ∧
    (Mono_Unix_UnixSignal_uninstall cstTwo (some 0)).1.slots 1 = cstTwo.slots 1 :=
  ⟨by decide, by decide, by decide, by decide, by decide⟩

/-- C2 (corrected), amended: uninstalling a valid handle whose signal number is
shared with at least one other live registration returns -1 (the claimed
success value 0 is produced only on the last-registration restore path),
leaves the OS-level disposition table untouched (so the table's handler stays
installed), clears the slot's signal number and does not modify any other
slot; uninstalling the sole remaining registration for its signal number
(when the restore call succeeds) returns 0 and reinstalls the recorded prior
disposition at the OS level. -/
theorem c2_shared_uninstall (st : TableState) (p : Nat) (hp : p < NUM_SIGNALS)
    (hh : (st.slots p).have_handler ≠ 0) :
    (2 ≤ count_handlers st (st.slots p).signum →
      (Mono_Unix_UnixSignal_uninstall st (some (p : Int))).2.1 = -1 ∧
      (∀ n, (Mono_Unix_UnixSignal_uninstall st (some (p : Int))).1.os n = st.os n) ∧
      ((Mono_Unix_UnixSignal_uninstall st (some (p : Int))).1.slots p).signum = 0 ∧
      (∀ i, i ≠ p →
        (Mono_Unix_UnixSignal_uninstall st (some (p : Int))).1.slots i = st.slots i)) ∧
    (count_handlers st (st.slots p).signum = 1 ∧ st.sigOk (st.slots p).signum = true →
      (Mono_Unix_UnixSignal_uninstall st (some (p : Int))).2.1 = 0 ∧
      (Mono_Unix_UnixSignal_uninstall st (some (p : Int))).1.os (st.slots p).signum
        = (st.slots p).handler ∧
      ((Mono_Unix_UnixSignal_uninstall st (some (p : Int))).1.slots p).signum = 0) := by
  constructor
  · intro hcount
    have hcond : ¬((st.slots p).have_handler ≠ 0 ∧
        count_handlers st (st.slots p).signum = 1) := by
      rintro ⟨-, hc1⟩; omega
    rw [uninstall_valid_other st p (by omega) hcond]
    refine ⟨rfl, fun n => rfl, ?_, fun i hi => ?_⟩
    · simp [Function.update_same, freedSlot]
    · simp [Function.update_noteq hi]
  · rintro ⟨hc1, hok⟩
    rw [uninstall_valid_last st p (by omega) ⟨hh, hc1⟩]
    refine ⟨by simp only [if_pos hok], ?_, ?_⟩
    · simp only [if_pos hok, Function.update_same]
    · simp [Function.update_same, clearedSlot]

/-- Witness for C2's amended theorem: both branches, on the two-registration
table `cstTwo` (shared case, slot 0) and on the singleton table `cstA`
(last-registration case, slot 0). -/
theorem c2_witness :
    ((0 < NUM_SIGNALS ∧ (cstTwo.slots 0).have_handler ≠ 0 ∧
      2 ≤ count_handlers cstTwo (cstTwo.slots 0).signum) ∧
     (0 < NUM_SIGNALS ∧ (cstA.slots 0).have_handler ≠ 0 ∧
      count_handlers cstA (cstA.slots 0).signum = 1 ∧
      cstA.sigOk (cstA.slots 0).signum = true)) ∧
    (Mono_Unix_UnixSignal_uninstall cstTwo (some 0)).2.1 = -1 ∧
    (Mono_Unix_UnixSignal_uninstall cstA (some 0)).2.1 = 0 ∧
    (Mono_Unix_UnixSignal_uninstall cstA (some 0)).1.os (cstA.slots 0).signum
      = (cstA.slots 0).handler :=
  ⟨⟨⟨by decide, by decide, by decide⟩, ⟨by decide, by decide, by decide, by decide⟩⟩,
   ((c2_shared_uninstall cstTwo 0 (by decide) (by decide)).1 (by decide)).1,
   ((c2_shared_uninstall cstA 0 (by decide) (by decide)).2 ⟨by decide, by decide⟩).1,
   ((c2_shared_uninstall cstA 0 (by decide) (by decide)).2 ⟨by decide, by decide⟩).2.1⟩

/-- C4 (corrected), counterexample: `cstFreed` is the state after slot 0's
sole registration was uninstalled, so `some 0` is a handle whose slot was
already freed.  Uninstalling it again returns -1 but does NOT set errno to
EINVAL (the freed slot still passes the pointer-range validity check and
takes the ordinary non-restoring path), refuting the claim that every
already-freed handle fails as InvalidHandle with errno EINVAL. -/
theorem c4_counterexample :
    (cstFreed.slots 0).signum = 0 ∧
    (Mono_Unix_UnixSignal_uninstall cstFreed (some 0)).2.1 = -1 ∧
    (Mono_Unix_UnixSignal_uninstall cstFreed (some 0)).2.2 = none ∧
    ¬((Mono_Unix_UnixSignal_uninstall cstFreed (some 0)).2.2 = some EINVAL) :=
  ⟨by decide, by decide, by decide, by decide⟩

/-- C4 (corrected), amended: a null handle, and any index outside 0..64
(strictly below the table or strictly beyond the one-past-the-end address),
fail with r = -1 and errno = EINVAL and leave the state untouched.  But a
handle whose slot was already freed (signal number 0, handler flag clear)
passes validation: it returns -1 WITHOUT setting errno, re-clears the slot's
already-zero signal number (leaving the whole table pointwise unchanged) and
performs no restoration; and the one-past-the-end index 64 also passes the
off-by-one bounds check, never producing EINVAL. -/
theorem c4_invalid_handles (st : TableState) (q : Int)
    (hq : q < 0 ∨ (NUM_SIGNALS : Int) < q)
    (p : Nat) (hp : p < NUM_SIGNALS)
    (hs0 : (st.slots p).signum = 0) (hh0 : (st.slots p).have_handler = 0) :
    Mono_Unix_UnixSignal_uninstall st none = (st, -1, some EINVAL) ∧
    Mono_Unix_UnixSignal_uninstall st (some q) = (st, -1, some EINVAL) ∧
    (Mono_Unix_UnixSignal_uninstall st (some (p : Int))).2.1 = -1 ∧
    (Mono_Unix_UnixSignal_uninstall st (some (p : Int))).2.2 = none ∧
    (∀ i, (Mono_Unix_UnixSignal_uninstall st (some (p : Int))).1.slots i = st.slots i) ∧
    (∀ n, (Mono_Unix_UnixSignal_uninstall st (some (p : Int))).1.os n = st.os n) ∧
    (Mono_Unix_UnixSignal_uninstall st (some (NUM_SIGNALS : Int))).2.2 = none := by
  have hcond : ¬((st.slots p).have_handler ≠ 0 ∧
      count_handlers st (st.slots p).signum = 1) := by
    rintro ⟨hc, -⟩; exact hc hh0
  refine ⟨uninstall_none st, uninstall_out_of_range st q hq, ?_, ?_, ?_, ?_, ?_⟩
  · rw [uninstall_valid_other st p (by omega) hcond]
  · rw [uninstall_valid_other st p (by omega) hcond]
  · intro i
    rw [uninstall_valid_other st p (by omega) hcond]
    simp [freedSlot_eq_self (st.slots p) hs0, Function.update_eq_self]
  · intro n
    rw [uninstall_valid_other st p (by omega) hcond]
  · by_cases hc : (st.slots NUM_SIGNALS).have_handler ≠ 0 ∧
        count_handlers st (st.slots NUM_SIGNALS).signum = 1
    · rw [uninstall_valid_last st NUM_SIGNALS (by omega) hc]
    · rw [uninstall_valid_other st NUM_SIGNALS (by omega) hc]

/-- Witness for C4's amended theorem: null, index -3, and freed slot 0 of
`cstFreed`. -/
theorem c4_witness :
    (((-3 : Int) < 0 ∨ (NUM_SIGNALS : Int) < -3) ∧ 0 < NUM_SIGNALS ∧
     (cstFreed.slots 0).signum = 0 ∧ (cstFreed.slots 0).have_handler = 0) ∧
    (Mono_Unix_UnixSignal_uninstall cstFreed (some (-3)) = (cstFreed, -1, some EINVAL) ∧
     (Mono_Unix_UnixSignal_uninstall cstFreed (some 0)).2.2 = none ∧
     (Mono_Unix_UnixSignal_uninstall cstFreed (some (NUM_SIGNALS : Int))).2.2 = none) :=
  ⟨⟨by norm_num, by decide, by decide, by decide⟩,
   (c4_invalid_handles cstFreed (-3) (by norm_num) 0 (by decide) (by decide) (by decide)).2.1,
   (c4_invalid_handles cstFreed (-3) (by norm_num) 0 (by decide) (by decide)
     (by decide)).2.2.2.1,
   (c4_invalid_handles cstFreed (-3) (by norm_num) 0 (by decide) (by decide)
     (by decide)).2.2.2.2.2.2⟩

/-- C3 (corrected), counterexample: with two handles and a finite timeout of
1 ms, a timed-out wait returns 1 — the timeout value itself — which is a
valid index into the input sequence, refuting the claim that the timeout
return value is distinct from every valid index. -/
theorem c3_counterexample :
    (wait_for_any cstArm [0, 1] 1 SelectOutcome.timedOut).1 = 1 ∧
    ¬ (∀ i : Int, 0 ≤ i → i < 2 →
        (wait_for_any cstArm [0, 1] 1 SelectOutcome.timedOut).1 ≠ i) :=
  ⟨by decide, fun hcl => hcl 1 (by norm_num) (by norm_num) (by decide)⟩

/-- C3 (corrected), amended: on timeout `wait_for_any` returns the timeout
value itself (the source comment says "timeout on timeout"); for a finite
(non-negative) timeout this is distinct from the error result -1, but it
coincides with a valid input index whenever the timeout value is smaller
than the handle count. -/
theorem c3_timeout_returns_timeout_value (st : TableState) (hs : List Nat) (t : Int)
    (ht : 0 ≤ t) :
    (wait_for_any st hs t SelectOutcome.timedOut).1 = t ∧
    (wait_for_any st hs t SelectOutcome.timedOut).1 ≠ -1 ∧
    (wait_for_any st hs t (SelectOutcome.failed EINVAL)).1 = -1 := by
  rw [wait_for_any_timedOut, wait_for_any_failed]
  exact ⟨rfl, by omega, rfl⟩

/-- Witness for C3's amended theorem at timeout 250 ms over the armed table. -/
theorem c3_witness :
    (0 : Int) ≤ 250 ∧
    (wait_for_any cstArm [0, 1] 250 SelectOutcome.timedOut).1 = 250 :=
  ⟨by norm_num, (c3_timeout_returns_timeout_value cstArm [0, 1] 250 (by norm_num)).1⟩

/-- C6 (corrected), counterexample: a `WaitAny` call over an empty handle
sequence is not rejected — when the indeterminate initial value of the
setup loop's result variable is 0, the call performs the blocking wait
(the trace contains the wait action) and a timed-out select makes it
return 7, the timeout value, rather than any error. -/
theorem c6_counterexample :
    (Mono_Unix_UnixSignal_WaitAny cstEmpty [] 7 0 prA SelectOutcome.timedOut).2.1 = 7 ∧
    (Mono_Unix_UnixSignal_WaitAny cstEmpty [] 7 0 prA SelectOutcome.timedOut).2.1 ≠ -1 ∧
    Act.blockingWait ∈
      (Mono_Unix_UnixSignal_WaitAny cstEmpty [] 7 0 prA SelectOutcome.timedOut).2.2 :=
  ⟨by decide, by decide, by decide⟩

/-- C6 (corrected), amended: `WaitAny` performs no validation of an empty
handle sequence.  With count = 0 the `setup_pipes` loop body never runs, so
its C result variable `r` keeps its indeterminate initial value `r0`: when
that value happens to be 0 the call proceeds to block on an empty readiness
set (returning the timeout value on timeout and -1 if select reports ready
descriptors, none of which can belong to a handle); when it is non-zero the
indeterminate value itself is returned without any wait.  In no case is a
fired index returned, and in no case is the empty sequence rejected. -/
theorem c6_empty_waitany_not_rejected (st : TableState)
    (pr : Nat → Option (Int × Int)) (t r0 : Int) (R : List Int) (oc : SelectOutcome)
    (hr : r0 ≠ 0) :
    ((Mono_Unix_UnixSignal_WaitAny st [] t 0 pr SelectOutcome.timedOut).2.1 = t ∧
     Act.blockingWait ∈ (Mono_Unix_UnixSignal_WaitAny st [] t 0 pr SelectOutcome.timedOut).2.2) ∧
    (Mono_Unix_UnixSignal_WaitAny st [] t 0 pr (SelectOutcome.ready R)).2.1 = -1 ∧
    ((Mono_Unix_UnixSignal_WaitAny st [] t r0 pr oc).2.1 = r0 ∧
     Act.blockingWait ∉ (Mono_Unix_UnixSignal_WaitAny st [] t r0 pr oc).2.2) := by
  refine ⟨⟨?_, ?_⟩, ?_, ?_, ?_⟩
  · rw [waitAny_eq, setup_pipes_nil]; rfl
  · rw [waitAny_eq, setup_pipes_nil]; simp [wait_for_any]
  · rw [waitAny_eq, setup_pipes_nil]; rfl
  · rw [waitAny_eq, setup_pipes_nil]
    simp only [if_neg hr]
  · rw [waitAny_eq, setup_pipes_nil]
    simp only [if_neg hr]
    simp [teardown_pipes]

/-- Witness for C6's amended theorem with indeterminate value 5 and timeout 9. -/
theorem c6_witness :
    (5 : Int) ≠ 0 ∧
    (Mono_Unix_UnixSignal_WaitAny cstEmpty [] 9 5 prA SelectOutcome.timedOut).2.1 = 5 :=
  ⟨by norm_num,
   (c6_empty_waitany_not_rejected cstEmpty prA 9 5 [] SelectOutcome.timedOut
     (by norm_num)).2.2.1⟩

/-- C7 (confirmed): when the wait wakes with a non-empty ready set, the scan
walks the handles in input order, drains exactly one byte from every entry
whose armed read fd is ready (the read actions are exactly one `pipeRead`
per ready entry, errors ignored), and the returned value is the lowest
input index whose pipe was ready. -/
theorem c7_wake_scan (st : TableState) (hs : List Nat) (R : List Int) (t : Int)
    (j : Nat) (hj : findFire st R hs = some j) :
    (wait_for_any st hs t (SelectOutcome.ready R)).1 = (j : Int) ∧
    j < hs.length ∧
    (st.slots (hs.getD j 0)).read_fd ∈ R ∧
    (∀ m, m < j → (st.slots (hs.getD m 0)).read_fd ∉ R) ∧
    (wait_for_any st hs t (SelectOutcome.ready R)).2 =
      Act.blockingWait ::
        (hs.filter (fun h => decide ((st.slots h).read_fd ∈ R))).map
          (fun h => Act.pipeRead (st.slots h).read_fd) := by
  obtain ⟨hlen, hmem, hmin⟩ := findFire_spec st R hs j hj
  refine ⟨?_, hlen, hmem, hmin, ?_⟩
  · rw [wait_for_any_ready]
    have := drainScan_fst_some st R hs 0 j hj
    simpa using this
  · rw [wait_for_any_ready]
    rw [drainScan_snd]

/-- Witness for C7: two armed handles with read fds 3 and 5; only fd 5 is
ready, so the wait reports index 1 and drains exactly that one pipe. -/
theorem c7_witness :
    findFire cstArm [5] [0, 1] = some 1 ∧
    ((wait_for_any cstArm [0, 1] 1000 (SelectOutcome.ready [5])).1 = 1 ∧
     (wait_for_any cstArm [0, 1] 1000 (SelectOutcome.ready [5])).2 =
       Act.blockingWait ::
         ([0, 1].filter (fun h => decide ((cstArm.slots h).read_fd ∈ [5]))).map
           (fun h => Act.pipeRead (cstArm.slots h).read_fd)) :=
  ⟨by decide,
   (c7_wake_scan cstArm [0, 1] [5] 1000 1 (by decide)).1,
   (c7_wake_scan cstArm [0, 1] [5] 1000 1 (by decide)).2.2.2.2⟩

/-- C8 (confirmed): one delivery of signal `s` increments the count of every
slot whose `signum` equals `s` by exactly one; the wake-byte writes are
attempted exactly on the matching slots whose armed `write_fd` is non-zero
(the source tests `fd > 0`, which under the invariant that pipe descriptors
are non-negative coincides with non-zero), each a single one-byte write with
the result ignored; and delivering `s` a total of `N` times to a table in
which no matching slot has an armed write fd yields counts increased by
exactly `N` with an empty write trace. -/
theorem c8_dispatch_handler_fanout (st : TableState) (s : Int)
    (hfd : ∀ i, i < NUM_SIGNALS → 0 ≤ (st.slots i).write_fd) :
    (∀ i, i < NUM_SIGNALS →
      ((default_handler st s).1.slots i).count =
        (st.slots i).count + (if (st.slots i).signum = s then 1 else 0)) ∧
    (default_handler st s).2 =
      ((List.range NUM_SIGNALS).filter
        (fun i => decide ((st.slots i).signum = s) && decide ((st.slots i).write_fd ≠ 0))).map
        (fun i => Act.pipeWrite ((st.slots i).write_fd)) ∧
    (∀ N, (∀ i, i < NUM_SIGNALS → (st.slots i).signum = s → (st.slots i).write_fd = 0) →
      (∀ i, i < NUM_SIGNALS →
        ((deliverN st s N).1.slots i).count =
          (st.slots i).count + (if (st.slots i).signum = s then (N : Int) else 0)) ∧
      (deliverN st s N).2 = []) := by
  refine ⟨?_, ?_, ?_⟩
  · intro i hi
    rw [default_handler_slots, if_pos hi, bumpIf_count]
  · unfold default_handler
    rw [handlerLoop_events]
    congr 1
    apply List.filter_congr
    intro i hi
    have hi64 : i < NUM_SIGNALS := List.mem_range.mp hi
    have := hfd i hi64
    by_cases h : (st.slots i).signum = s
    · simp only [h]
      by_cases hz : (st.slots i).write_fd = 0
      · simp [hz]
      · have : (st.slots i).write_fd > 0 := by omega
        simp [hz, this]
    · simp [h]
  · intro N hw
    exact ⟨fun i hi => (deliverN_slots st s N i hi).2.2, deliverN_events st s N hw⟩

/-- Witness for C8: the fan-out theorem applied to `cstFan` and signal 5.
Slot 0 (waited, write fd 7) and slot 1 (unwaited) both match; slot 2 does
not.  Also instantiates the N-delivery part with N = 3 on `cstA` (no armed
waiter anywhere). -/
theorem c8_witness :
    ((∀ i, i < NUM_SIGNALS → 0 ≤ (cstFan.slots i).write_fd) ∧
     (∀ i, i < NUM_SIGNALS → (cstA.slots i).signum = 5 → (cstA.slots i).write_fd = 0)) ∧
    ((∀ i, i < NUM_SIGNALS →
      ((default_handler cstFan 5).1.slots i).count =
        (cstFan.slots i).count + (if (cstFan.slots i).signum = 5 then 1 else 0)) ∧
     (∀ i, i < NUM_SIGNALS →
      ((deliverN cstA 5 3).1.slots i).count =
        (cstA.slots i).count + (if (cstA.slots i).signum = 5 then (3 : Int) else 0)) ∧
     (deliverN cstA 5 3).2 = []) :=
  ⟨⟨by decide, by decide⟩,
   (c8_dispatch_handler_fanout cstFan 5 (by decide)).1,
   ((c8_dispatch_handler_fanout cstA 5 (by decide)).2.2 3 (by decide)).1,
   ((c8_dispatch_handler_fanout cstA 5 (by decide)).2.2 3 (by decide)).2⟩
